import Mathlib

/-!
Verification of the Convex notes backend (`convex/notes.ts`) of the
Notion-clone repository.  The document store is modelled as explicit
association lists keyed by numeric ids; every query/mutation handler is
translated into a pure Lean function.  Mutations return `Except String DB`
where the `String` carries the thrown error message: an error result means
the transaction aborted and the store is unchanged, matching Convex's
transactional mutation semantics (every `throw` in the source happens
before any write in the same handler).
-/

namespace NotesApp

/-- Share permission, `v.union(v.literal("read"), v.literal("write"))`. -/
inductive Permission where
  | read
  | write
deriving DecidableEq, Repr

/-- A user record (from the auth tables): optional display name and email. -/
structure User where
  name : Option String
  email : Option String
deriving DecidableEq, Repr

/-- A note document, per `convex/schema.ts`. -/
structure Note where
  title : String
  content : String
  isPublic : Bool
  authorId : Nat
  lastEditedBy : Option Nat
  lastEditedAt : Nat
deriving DecidableEq, Repr

/-- A share document (`noteShares` table), per `convex/schema.ts`. -/
structure Share where
  noteId : Nat
  sharedWithId : Nat
  permission : Permission
  sharedBy : Nat
deriving DecidableEq, Repr

/-- The document store: three tables of (id, document) rows plus a fresh-id
counter used by `insert`. -/
structure DB where
  users : List (Nat × User)
  notes : List (Nat × Note)
  shares : List (Nat × Share)
  nextId : Nat
deriving DecidableEq, Repr

/-- Result shape of `getNote`: the note spread together with `authorName`
and `canEdit`. -/
structure NoteView where
  id : Nat
  note : Note
  authorName : String
  canEdit : Bool
deriving DecidableEq, Repr

/-- Result shape of `searchNotes`: the note spread together with
`authorName`. -/
structure SearchView where
  id : Nat
  note : Note
  authorName : String
deriving DecidableEq, Repr

/-- Result shape of `getSharedNotes`: the note spread together with
`authorName` and the granted `permission`. -/
structure SharedView where
  id : Nat
  note : Note
  authorName : String
  permission : Permission
deriving DecidableEq, Repr

/-- `ctx.db.get` on the notes table. -/
def findNote (db : DB) (i : Nat) : Option Note :=
  (db.notes.find? (fun p => p.1 == i)).map (fun p => p.2)

/-- `ctx.db.get` on the users table. -/
def findUser (db : DB) (i : Nat) : Option User :=
  (db.users.find? (fun p => p.1 == i)).map (fun p => p.2)

/-- JavaScript `a || b` for an optional string `a`: the empty string is
falsy, so it falls through to `b`. -/
def jsOrStr (a : Option String) (b : String) : String :=
  match a with
  | some s => if s = "" then b else s
  | none => b

/-- `author?.name || author?.email || fallback`. -/
def resolveName (author : Option User) (fallback : String) : String :=
  match author with
  | some a => jsOrStr a.name (jsOrStr a.email fallback)
  | none => fallback

/-- Convex `.unique()`: `none` when no row matches, the single row when
exactly one does, and a thrown error when several match. -/
def uniqueBy {α : Type} (p : α → Bool) (l : List α) : Except String (Option α) :=
  match l.filter p with
  | [] => Except.ok none
  | [x] => Except.ok (some x)
  | _ => Except.error "unique query returned more than one result"

/-- Whether an `Except` result is a success. -/
def isOk {ε α : Type} : Except ε α → Bool
  | Except.ok _ => true
  | Except.error _ => false

/-- Predicate matching a share row for a given (noteId, sharedWithId) pair,
as used by the `by_note_and_user` index. -/
def pairPred (noteId userId : Nat) (p : Nat × Share) : Bool :=
  p.2.noteId == noteId && p.2.sharedWithId == userId

/-- `getUserNotes`: all notes authored by the requester, newest first
(empty for anonymous requesters). -/
def getUserNotes (db : DB) (requester : Option Nat) : List (Nat × Note) :=
  match requester with
  | none => []
  | some userId => (db.notes.filter (fun p => p.2.authorId == userId)).reverse

/-- `getSharedNotes`: notes shared with the requester, each annotated with
the resolved author name and the granted permission; shares whose note was
deleted are silently dropped (`notes.filter(Boolean)`). -/
def getSharedNotes (db : DB) (requester : Option Nat) : List SharedView :=
  match requester with
  | none => []
  | some userId =>
    (db.shares.filter (fun p => p.2.sharedWithId == userId)).filterMap
      (fun p =>
        match findNote db p.2.noteId with
        | none => none
        | some note =>
          some { id := p.2.noteId, note := note
                 authorName := resolveName (findUser db note.authorId) "Unknown"
                 permission := p.2.permission })

/-- `getPublicNotes`: the 20 most recently created public notes, annotated
with the author name (fallback "Anonymous"). -/
def getPublicNotes (db : DB) : List (Nat × Note × String) :=
  (((db.notes.filter (fun p => p.2.isPublic)).reverse).take 20).map
    (fun p => (p.1, p.2, resolveName (findUser db p.2.authorId) "Anonymous"))

/-- `getNote`: the access-resolving read.  Public notes are visible to
everyone with `canEdit` only for the author; otherwise the requester must
be the author ("You", canEdit) or hold a share (canEdit iff the share
permission is write); anyone else, and anonymous requesters, get `none`,
the same value as for a nonexistent note id. -/
def getNote (db : DB) (requester : Option Nat) (noteId : Nat) :
    Except String (Option NoteView) :=
  match findNote db noteId with
  | none => Except.ok none
  | some note =>
    if note.isPublic then
      Except.ok (some { id := noteId, note := note
                        authorName := resolveName (findUser db note.authorId) "Anonymous"
                        canEdit := requester == some note.authorId })
    else
      match requester with
      | none => Except.ok none
      | some userId =>
        if note.authorId == userId then
          Except.ok (some { id := noteId, note := note, authorName := "You", canEdit := true })
        else
          match uniqueBy (pairPred noteId userId) db.shares with
          | Except.error e => Except.error e
          | Except.ok (some sh) =>
            Except.ok (some { id := noteId, note := note
                              authorName := resolveName (findUser db note.authorId) "Unknown"
                              canEdit := sh.2.permission == Permission.write })
          | Except.ok none => Except.ok none

/-- The `canEdit` flag computed by the Access Resolver (`getNote`);
`false` when the note is not visible to the requester. -/
def resolverCanEdit (db : DB) (requester : Option Nat) (noteId : Nat) : Bool :=
  match getNote db requester noteId with
  | Except.ok (some v) => v.canEdit
  | _ => false

/-- `createNote`: requires authentication; `content` defaults to the empty
string via JavaScript `||`, `isPublic` defaults to `true` via `??`; the new
row gets `authorId = requester`, `lastEditedAt = now` and a fresh id, which
is returned. -/
def createNote (db : DB) (requester : Option Nat) (title : String)
    (content : Option String) (isPublic : Option Bool) (now : Nat) :
    Except String (DB × Nat) :=
  match requester with
  | none => Except.error "Not authenticated"
  | some userId =>
    let note : Note :=
      { title := title
        content := jsOrStr content ""
        isPublic := isPublic.getD true
        authorId := userId
        lastEditedBy := none
        lastEditedAt := now }
    Except.ok ({ db with notes := db.notes ++ [(db.nextId, note)], nextId := db.nextId + 1 },
               db.nextId)

/-- `updateNote`: requires authentication and an existing note; edit is
allowed to the author or to the holder of a write share; on success patches
`lastEditedBy`/`lastEditedAt` always, `title`/`content` when supplied, and
`isPublic` only when supplied by the author. -/
def updateNote (db : DB) (requester : Option Nat) (noteId : Nat)
    (title : Option String) (content : Option String) (isPublic : Option Bool)
    (now : Nat) : Except String DB :=
  match requester with
  | none => Except.error "Not authenticated"
  | some userId =>
    match findNote db noteId with
    | none => Except.error "Note not found"
    | some note =>
      let step : Except String Bool :=
        if note.authorId == userId then Except.ok true
        else
          match uniqueBy (pairPred noteId userId) db.shares with
          | Except.error e => Except.error e
          | Except.ok sh =>
            Except.ok (match sh with
              | some q => q.2.permission == Permission.write
              | none => false)
      match step with
      | Except.error e => Except.error e
      | Except.ok canEdit =>
        if !canEdit then Except.error "Not authorized to edit this note"
        else
          let note' : Note :=
            { note with
              lastEditedBy := some userId
              lastEditedAt := now
              title := match title with | some t => t | none => note.title
              content := match content with | some c => c | none => note.content
              isPublic := match isPublic with
                | some b => if note.authorId == userId then b else note.isPublic
                | none => note.isPublic }
          Except.ok { db with
            notes := db.notes.map (fun p => if p.1 == noteId then (p.1, note') else p) }

/-- `deleteNote`: requires authentication and an existing note; only the
author may delete; deletes every share row referencing the note (collected
through the `by_note` index) and then the note itself. -/
def deleteNote (db : DB) (requester : Option Nat) (noteId : Nat) :
    Except String DB :=
  match requester with
  | none => Except.error "Not authenticated"
  | some userId =>
    match findNote db noteId with
    | none => Except.error "Note not found"
    | some note =>
      if note.authorId != userId then
        Except.error "Not authorized to delete this note"
      else
        let sharesToDelete :=
          (db.shares.filter (fun p => p.2.noteId == noteId)).map (fun p => p.1)
        Except.ok { db with
          shares := db.shares.filter (fun p => !(sharesToDelete.contains p.1))
          notes := db.notes.filter (fun p => !(p.1 == noteId)) }

/-- `shareNote`: requires authentication, an existing note and that the
requester is its author; resolves the email to a user via a unique index
lookup; forbids self-shares; then upserts the (noteId, target) share with
the given permission. -/
def shareNote (db : DB) (requester : Option Nat) (noteId : Nat)
    (email : String) (permission : Permission) : Except String DB :=
  match requester with
  | none => Except.error "Not authenticated"
  | some userId =>
    match findNote db noteId with
    | none => Except.error "Note not found"
    | some note =>
      if note.authorId != userId then
        Except.error "Not authorized to share this note"
      else
        match uniqueBy (fun p => p.2.email == some email) db.users with
        | Except.error e => Except.error e
        | Except.ok none => Except.error "User not found"
        | Except.ok (some target) =>
          if target.1 == userId then
            Except.error "Cannot share note with yourself"
          else
            match uniqueBy (pairPred noteId target.1) db.shares with
            | Except.error e => Except.error e
            | Except.ok (some existing) =>
              Except.ok { db with
                shares := db.shares.map (fun p =>
                  if p.1 == existing.1 then (p.1, { p.2 with permission := permission })
                  else p) }
            | Except.ok none =>
              Except.ok { db with
                shares := db.shares ++
                  [(db.nextId,
                    { noteId := noteId, sharedWithId := target.1
                      permission := permission, sharedBy := userId })]
                nextId := db.nextId + 1 }

/-- JavaScript `Array.prototype.filter` applied with the element index, as
used by the deduplication step of `searchNotes`: keep the element at
position `i` exactly when `findIndex` of its key over the whole original
list returns `i`. -/
def jsDedupAux {α : Type} (key : α → Nat) (orig : List α) : Nat → List α → List α
  | _, [] => []
  | i, x :: xs =>
    if orig.findIdx (fun y => key y == key x) == i then
      x :: jsDedupAux key orig (i + 1) xs
    else
      jsDedupAux key orig (i + 1) xs

/-- The deduplication of `searchNotes`:
`all.filter((note, index, self) => index === self.findIndex(n => n._id === note._id))`. -/
def jsDedup {α : Type} (key : α → Nat) (l : List α) : List α :=
  jsDedupAux key l 0 l

/-- First-occurrence deduplication with an accumulated predicate of
already-seen keys; bridge between the source's index-based filter and the
specification's first-occurrence description. -/
def firstOccB {α : Type} (key : α → Nat) (seen : Nat → Bool) : List α → List α
  | [] => []
  | x :: xs =>
    if seen (key x) then firstOccB key seen xs
    else x :: firstOccB key (fun k => k == key x || seen k) xs

/-- The specification's deduplication: keep each element whose key has not
occurred earlier (first occurrence wins, order preserved). -/
def keyDedup {α : Type} (key : α → Nat) : List α → List α
  | [] => []
  | x :: xs => x :: keyDedup key (xs.filter (fun y => key y != key x))
termination_by l => l.length
decreasing_by
  simp only [List.length_cons]
  exact Nat.lt_succ_of_le (List.length_filter_le _ _)

/-- One scoped text-index search of `searchNotes`: the index's
relevance-ranked matches (`ranked`), resolved against the store, filtered
by the `isPublic = true` equality filter, capped at 10. -/
def searchPublic (db : DB) (ranked : List Nat) : List (Nat × Note) :=
  ((ranked.filterMap (fun i => (findNote db i).map (fun n => (i, n)))).filter
    (fun p => p.2.isPublic)).take 10

/-- The own-notes scoped search of `searchNotes`: the index's matches
filtered by the `authorId = userId` equality filter, capped at 10. -/
def searchOwn (db : DB) (ranked : List Nat) (userId : Nat) : List (Nat × Note) :=
  ((ranked.filterMap (fun i => (findNote db i).map (fun n => (i, n)))).filter
    (fun p => p.2.authorId == userId)).take 10

/-- JavaScript `String.prototype.trim`: strip leading and trailing
whitespace, modelled over the character list. -/
def jsTrim (s : String) : String :=
  String.mk (((s.data.dropWhile Char.isWhitespace).reverse.dropWhile
    Char.isWhitespace).reverse)

/-- `searchNotes`: empty for blank queries; anonymous requesters get the
annotated public scope; authenticated requesters get the public scope
concatenated with their own scope, deduplicated by note id keeping the
first occurrence, annotated ("You" for own notes), and truncated to 10.
The text index itself is the external collaborator and is passed in as
`idx`, the relevance-ranked list of matching note ids for a query. -/
def searchNotes (db : DB) (idx : String → List Nat) (requester : Option Nat)
    (q : String) : List SearchView :=
  if jsTrim q == "" then []
  else
    let publicResults := searchPublic db (idx q)
    match requester with
    | none =>
      publicResults.map (fun p =>
        { id := p.1, note := p.2
          authorName := resolveName (findUser db p.2.authorId) "Anonymous" })
    | some userId =>
      let userResults := searchOwn db (idx q) userId
      let allResults := publicResults ++ userResults
      let uniqueResults := jsDedup (fun p => p.1) allResults
      (uniqueResults.map (fun p =>
        { id := p.1, note := p.2
          authorName :=
            if p.2.authorId == userId then "You"
            else resolveName (findUser db p.2.authorId) "Anonymous" })).take 10

/-- Store well-formedness for the share table: row ids are distinct and the
fresh-id counter is above every existing id — the invariant the external
document store maintains for its generated ids. -/
def sharesWF (db : DB) : Prop :=
  (db.shares.map Prod.fst).Nodup ∧ ∀ q ∈ db.shares, q.1 < db.nextId

/-! ### Concrete stores used to instantiate the theorems -/

/-- A public note authored by user 0. -/
def exNote : Note :=
  { title := "T", content := "C", isPublic := true, authorId := 0
    lastEditedBy := none, lastEditedAt := 0 }

/-- A store with a public note (id 10, author 0) and a write share for
user 1 on that note. -/
def exDB : DB :=
  { users := [(0, { name := some "Owner", email := some "owner at x" }),
              (1, { name := some "Uma", email := some "uma at x" })]
    notes := [(10, exNote)]
    shares := [(20, { noteId := 10, sharedWithId := 1
                      permission := Permission.write, sharedBy := 0 })]
    nextId := 21 }

/-- A private note authored by user 0. -/
def exPrivNote : Note :=
  { title := "P", content := "S", isPublic := false, authorId := 0
    lastEditedBy := none, lastEditedAt := 0 }

/-- A store with a private note (id 10, author 0) and a read share for
user 1 on that note. -/
def exPrivDB : DB :=
  { users := [(0, { name := some "Owner", email := some "owner at x" }),
              (1, { name := some "Uma", email := some "uma at x" }),
              (2, { name := none, email := some "eve at x" })]
    notes := [(10, exPrivNote)]
    shares := [(20, { noteId := 10, sharedWithId := 1
                      permission := Permission.read, sharedBy := 0 })]
    nextId := 21 }

/-! ### C1 -/

/-- C1 counterexample: on a public note, the Access Resolver (`getNote`)
does not grant `canEdit` to a write-share holder, yet `updateNote` by that
same requester succeeds — so `updateNote` does not fail exactly when the
resolver denies `canEdit`. -/
theorem updateNote_resolver_mismatch :
    resolverCanEdit exDB (some 1) 10 = false
    ∧ isOk (updateNote exDB (some 1) 10 (some "x") none none 99) = true := by
  constructor <;> rfl

/-- C1 (amended): for an authenticated requester and an existing note,
`updateNote` fails with the authorization error exactly when the requester
is neither the note's author nor the holder of a write-permission share on
it (the note's `isPublic` flag plays no role).  On failure the store is
unchanged: the mutation aborts before any write. -/
theorem updateNote_auth_iff (db : DB) (u N : Nat) (note : Note)
    (t c : Option String) (b : Option Bool) (now : Nat)
    (hN : findNote db N = some note)
    (hlen : (db.shares.filter (pairPred N u)).length ≤ 1) :
    (updateNote db (some u) N t c b now =
        Except.error "Not authorized to edit this note")
    ↔ (note.authorId ≠ u ∧
        ∀ p ∈ db.shares, p.2.noteId = N → p.2.sharedWithId = u →
          p.2.permission ≠ Permission.write) := by
  by_cases hau : note.authorId = u
  · simp [updateNote, hN, hau]
  · have hbeq : (note.authorId == u) = false := by simp [hau]
    cases hfil : db.shares.filter (pairPred N u) with
    | nil =>
      have hL : updateNote db (some u) N t c b now =
          Except.error "Not authorized to edit this note" := by
        simp [updateNote, hN, hbeq, uniqueBy, hfil]
      refine iff_of_true hL ⟨hau, ?_⟩
      intro p hp h1 h2
      have hpm : pairPred N u p = true := by simp [pairPred, h1, h2]
      have hmem : p ∈ db.shares.filter (pairPred N u) := List.mem_filter.mpr ⟨hp, hpm⟩
      rw [hfil] at hmem
      exact absurd hmem (List.not_mem_nil p)
    | cons x xs =>
      cases xs with
      | cons y ys => rw [hfil] at hlen; simp at hlen
      | nil =>
        have hx : x ∈ db.shares.filter (pairPred N u) := by
          rw [hfil]; exact List.mem_cons_self x []
        have hxs : x ∈ db.shares := (List.mem_filter.mp hx).1
        have hxp : pairPred N u x = true := (List.mem_filter.mp hx).2
        have hx1 : x.2.noteId = N := by
          have h := hxp
          simp [pairPred] at h
          exact h.1
        have hx2 : x.2.sharedWithId = u := by
          have h := hxp
          simp [pairPred] at h
          exact h.2
        cases hperm : x.2.permission with
        | write =>
          have hbw : (x.2.permission == Permission.write) = true := by
            rw [hperm]; rfl
          apply iff_of_false
          · intro h
            simp [updateNote, hN, hbeq, uniqueBy, hfil, hbw] at h
          · intro h
            exact absurd hperm (h.2 x hxs hx1 hx2)
        | read =>
          have hbw : (x.2.permission == Permission.write) = false := by
            rw [hperm]; rfl
          have hL : updateNote db (some u) N t c b now =
              Except.error "Not authorized to edit this note" := by
            simp [updateNote, hN, hbeq, uniqueBy, hfil, hbw]
          refine iff_of_true hL ⟨hau, ?_⟩
          intro p hp h1 h2
          have hpm : pairPred N u p = true := by simp [pairPred, h1, h2]
          have hmem : p ∈ db.shares.filter (pairPred N u) := List.mem_filter.mpr ⟨hp, hpm⟩
          rw [hfil] at hmem
          have hpx : p = x := by
            cases hmem with
            | head => rfl
            | tail _ h => exact absurd h (List.not_mem_nil p)
          rw [hpx, hperm]
          simp

/-- C1 amended claim instantiated: in a store with a private note and a
read share, the non-owner share holder's update fails with the
authorization error. -/
theorem updateNote_auth_iff_witness :
    (updateNote exPrivDB (some 1) 10 (some "x") none none 99 =
        Except.error "Not authorized to edit this note")
    ↔ (exPrivNote.authorId ≠ 1 ∧
        ∀ p ∈ exPrivDB.shares, p.2.noteId = 10 → p.2.sharedWithId = 1 →
          p.2.permission ≠ Permission.write) :=
  updateNote_auth_iff exPrivDB 1 10 exPrivNote (some "x") none none 99
    (by rfl) (by decide)

/-! ### C2 -/

/-- C2: a public note is visible to every requester, including anonymous
ones, and the returned `canEdit` flag is true exactly when the requester is
the note's author — a write share on a public note does not confer
`canEdit`. -/
theorem getNote_public_canEdit (db : DB) (R : Option Nat) (N : Nat) (note : Note)
    (hN : findNote db N = some note) (hpub : note.isPublic = true) :
    ∃ v : NoteView, getNote db R N = Except.ok (some v)
      ∧ (v.canEdit = true ↔ R = some note.authorId) := by
  refine ⟨{ id := N, note := note
            authorName := resolveName (findUser db note.authorId) "Anonymous"
            canEdit := R == some note.authorId }, ?_, ?_⟩
  · unfold getNote
    rw [hN]
    simp [hpub]
  · simp [beq_iff_eq]

/-- C2 instantiated: user 1 holds a write share on the public note of
`exDB` but still gets `canEdit = false`; the author would get true. -/
theorem getNote_public_canEdit_witness :
    ∃ v : NoteView, getNote exDB (some 1) 10 = Except.ok (some v)
      ∧ (v.canEdit = true ↔ (some 1 : Option Nat) = some exNote.authorId) :=
  getNote_public_canEdit exDB (some 1) 10 exNote (by rfl) (by rfl)

/-! ### C3 -/

/-- C3: a private note is invisible to any requester who is neither its
author nor the holder of a share on it (anonymous requesters included):
`getNote` returns the very same no-result value it returns for a note id
that does not exist, so the output never reveals whether the note exists. -/
theorem getNote_private_hidden (db : DB) (R : Option Nat) (N M : Nat) (note : Note)
    (hN : findNote db N = some note) (hpriv : note.isPublic = false)
    (hauth : R ≠ some note.authorId)
    (hshare : ∀ p ∈ db.shares, ¬(p.2.noteId = N ∧ some p.2.sharedWithId = R))
    (hM : findNote db M = none) :
    getNote db R N = Except.ok none ∧ getNote db R N = getNote db R M := by
  have hMnone : getNote db R M = Except.ok none := by
    unfold getNote
    rw [hM]
  have hNnone : getNote db R N = Except.ok none := by
    cases R with
    | none => simp [getNote, hN, hpriv]
    | some u =>
      have hne : (note.authorId == u) = false := by
        simp only [beq_eq_false_iff_ne, ne_eq]
        intro h
        exact hauth (by rw [h])
      have hfil : db.shares.filter (pairPred N u) = [] := by
        rw [List.filter_eq_nil_iff]
        intro p hp
        intro hpp
        simp [pairPred] at hpp
        exact hshare p hp ⟨hpp.1, by rw [hpp.2]⟩
      simp [getNote, hN, hpriv, hne, uniqueBy, hfil]
  exact ⟨hNnone, by rw [hNnone, hMnone]⟩

/-- C3 instantiated: user 2 has no share on the private note 10 of
`exPrivDB`; reading it is indistinguishable from reading the absent id 99. -/
theorem getNote_private_hidden_witness :
    getNote exPrivDB (some 2) 10 = Except.ok none
    ∧ getNote exPrivDB (some 2) 10 = getNote exPrivDB (some 2) 99 :=
  getNote_private_hidden exPrivDB (some 2) 10 99 exPrivNote
    (by rfl) (by rfl) (by decide) (by decide) (by rfl)

/-! ### C4 -/

/-- If no share row of a store references note `N`, then no shared-notes
listing of any requester contains an entry with id `N`. -/
theorem getSharedNotes_no_note (db2 : DB) (N : Nat)
    (hsh : ∀ p ∈ db2.shares, p.2.noteId ≠ N) :
    ∀ R : Option Nat, ∀ v ∈ getSharedNotes db2 R, v.id ≠ N := by
  intro R v hv
  cases R with
  | none => exact absurd hv (List.not_mem_nil v)
  | some r =>
    simp only [getSharedNotes] at hv
    obtain ⟨p, hp, hpv⟩ := List.mem_filterMap.mp hv
    have hpmem : p ∈ db2.shares := (List.mem_filter.mp hp).1
    have hne := hsh p hpmem
    cases hfind : findNote db2 p.2.noteId with
    | none => rw [hfind] at hpv; exact absurd hpv (by simp)
    | some note2 =>
      rw [hfind] at hpv
      simp only [Option.some.injEq] at hpv
      rw [← hpv]
      simpa using hne

/-- C4: `deleteNote` succeeds only for the note's author — an
authenticated non-author, even one holding a write share, gets the
authorization error — and on success every share row referencing the note
is deleted together with the note, so no requester's shared list mentions
it any longer. -/
theorem deleteNote_cascade (db : DB) (u N : Nat) (note : Note)
    (hN : findNote db N = some note) :
    (note.authorId ≠ u →
      deleteNote db (some u) N = Except.error "Not authorized to delete this note")
    ∧ (∀ db', deleteNote db (some u) N = Except.ok db' →
        note.authorId = u
        ∧ (∀ p ∈ db'.shares, p.2.noteId ≠ N)
        ∧ findNote db' N = none
        ∧ (∀ R : Option Nat, ∀ v ∈ getSharedNotes db' R, v.id ≠ N)) := by
  constructor
  · intro hne
    have hbne : (note.authorId != u) = true := by simp [hne]
    simp [deleteNote, hN, hbne]
  · intro db' h
    by_cases hau : note.authorId = u
    · have hbne : (note.authorId != u) = false := by simp [hau]
      simp only [deleteNote, hN, hbne, Bool.false_eq_true, if_false, Except.ok.injEq] at h
      subst h
      have hshares : ∀ p ∈ db.shares.filter
          (fun q => !(((db.shares.filter (fun q2 => q2.2.noteId == N)).map
            (fun q2 => q2.1)).contains q.1)),
          p.2.noteId ≠ N := by
        intro p hp hpN
        have hmem := List.mem_filter.mp hp
        have hdel : p.1 ∈ (db.shares.filter (fun q => q.2.noteId == N)).map
            (fun q => q.1) := by
          refine List.mem_map.mpr ⟨p, ?_, rfl⟩
          exact List.mem_filter.mpr ⟨hmem.1, by simp [hpN]⟩
        have hcon : ((db.shares.filter (fun q => q.2.noteId == N)).map
            (fun q => q.1)).contains p.1 = true := List.elem_iff.mpr hdel
        rw [hcon] at hmem
        simp at hmem
      refine ⟨hau, hshares, ?_, getSharedNotes_no_note _ N hshares⟩
      unfold findNote
      have hfind : (db.notes.filter (fun p => !(p.1 == N))).find?
          (fun p => p.1 == N) = none := by
        rw [List.find?_eq_none]
        intro x hx hxN
        have hneg := (List.mem_filter.mp hx).2
        rw [hxN] at hneg
        simp at hneg
      simp only [hfind]
      rfl
    · exfalso
      have hbne : (note.authorId != u) = true := by simp [hau]
      simp [deleteNote, hN, hbne] at h

/-- C4 instantiated: the owner deletes note 10 of `exPrivDB`; afterwards no
share row references it, it is gone, and no shared list contains it. -/
theorem deleteNote_cascade_witness :
    exPrivNote.authorId = 0
    ∧ (∀ p ∈ ((deleteNote exPrivDB (some 0) 10).toOption.getD exPrivDB).shares,
        p.2.noteId ≠ 10) := by
  have h := (deleteNote_cascade exPrivDB 0 10 exPrivNote (by rfl)).2
  have h2 := h ((deleteNote exPrivDB (some 0) 10).toOption.getD exPrivDB) (by rfl)
  exact ⟨h2.1, h2.2.1⟩

/-! ### C7 -/

/-- After patching the note with id `N` to `n'`, looking it up returns
`n'`, provided a row with id `N` was findable before. -/
theorem findNote_patch (db : DB) (N : Nat) (n' : Note) (pr : Nat × Note)
    (hpr : db.notes.find? (fun p => p.1 == N) = some pr) :
    findNote { db with
      notes := db.notes.map (fun p => if p.1 == N then (p.1, n') else p) } N =
      some n' := by
  unfold findNote
  simp only
  rw [List.find?_map]
  have hcomp : ((fun p : Nat × Note => p.1 == N) ∘
      (fun p : Nat × Note => if p.1 == N then (p.1, n') else p)) =
      (fun p : Nat × Note => p.1 == N) := by
    funext q
    by_cases hq : q.1 = N <;> simp [hq]
  rw [hcomp, hpr]
  have hpr1 : pr.1 = N := by simpa using List.find?_some hpr
  simp [hpr1]

/-- C7: every successful `updateNote` stamps `lastEditedBy` with the
requester and `lastEditedAt` with the current time; omitted fields keep
their old values; and an `isPublic` value supplied by a non-author editor
is silently ignored — the whole call behaves exactly as if `isPublic` had
been omitted. -/
theorem updateNote_frame (db : DB) (u N : Nat) (note : Note)
    (t c : Option String) (b : Option Bool) (now : Nat)
    (hN : findNote db N = some note) :
    (∀ db', updateNote db (some u) N t c b now = Except.ok db' →
      findNote db' N = some { note with
        lastEditedBy := some u
        lastEditedAt := now
        title := t.getD note.title
        content := c.getD note.content
        isPublic := if note.authorId = u then b.getD note.isPublic else note.isPublic })
    ∧ (note.authorId ≠ u →
        updateNote db (some u) N t c b now = updateNote db (some u) N t c none now) := by
  obtain ⟨pr, hpr, hpr2⟩ : ∃ pr, db.notes.find? (fun p => p.1 == N) = some pr
      ∧ pr.2 = note := by
    unfold findNote at hN
    cases hfind : db.notes.find? (fun p => p.1 == N) with
    | none => rw [hfind] at hN; exact absurd hN (by simp)
    | some pr =>
      rw [hfind] at hN
      exact ⟨pr, rfl, Option.some.inj hN⟩
  constructor
  · intro db' h
    by_cases hau : note.authorId = u
    · have hbeq : (note.authorId == u) = true := by simp [hau]
      simp only [updateNote, hN, hbeq, if_true, Bool.not_true, Bool.false_eq_true,
        if_false, Except.ok.injEq] at h
      subst h
      rw [findNote_patch db N _ pr hpr]
      cases t <;> cases c <;> cases b <;> first | rfl | simp [hau]
    · have hbeq : (note.authorId == u) = false := by simp [hau]
      simp only [updateNote, hN, hbeq, Bool.false_eq_true, if_false] at h
      cases hu : uniqueBy (pairPred N u) db.shares with
      | error e => rw [hu] at h; exact absurd h (by simp)
      | ok sh =>
        rw [hu] at h
        cases sh with
        | none => exact absurd h (by simp)
        | some q =>
          dsimp only at h
          cases hqp : (q.2.permission == Permission.write) with
          | false =>
            rw [hqp] at h
            exact absurd h (by simp)
          | true =>
            rw [hqp] at h
            simp only [Bool.not_true, Bool.false_eq_true, if_false,
              Except.ok.injEq] at h
            subst h
            rw [findNote_patch db N _ pr hpr]
            cases t <;> cases c <;> cases b <;> first | rfl | simp [hau]
  · intro hne
    have hbeq : (note.authorId == u) = false := by simp [hne]
    cases b with
    | none => rfl
    | some bb => simp [updateNote, hN, hbeq]

/-- C7 instantiated: a non-author write-share holder updates the public
note of `exDB` supplying `isPublic = false`; the update succeeds but the
resulting note keeps `isPublic = true`, and the edit stamp is set. -/
theorem updateNote_frame_witness :
    findNote ((updateNote exDB (some 1) 10 (some "x") none (some false) 99).toOption.getD
        exDB) 10 =
      some { exNote with
        lastEditedBy := some 1
        lastEditedAt := 99
        title := (some "x").getD exNote.title
        content := (none : Option String).getD exNote.content
        isPublic := if exNote.authorId = 1 then (some false).getD exNote.isPublic
          else exNote.isPublic } := by
  have h := (updateNote_frame exDB 1 10 exNote (some "x") none (some false) 99 (by rfl)).1
  exact h ((updateNote exDB (some 1) 10 (some "x") none (some false) 99).toOption.getD exDB)
    (by rfl)

/-! ### C8 -/

/-- C8: `shareNote` fails with the authorization error when the requester
is not the note's author, with the not-found error when no user has the
given email, and with the validation error when the email resolves to the
requester themselves — all regardless of the permission argument, and in
every failure case the mutation aborts without touching any share row. -/
theorem shareNote_errors (db : DB) (u N : Nat) (note : Note) (email : String)
    (p : Permission) (hN : findNote db N = some note) :
    (note.authorId ≠ u →
      shareNote db (some u) N email p = Except.error "Not authorized to share this note")
    ∧ (note.authorId = u →
        db.users.filter (fun q => q.2.email == some email) = [] →
        shareNote db (some u) N email p = Except.error "User not found")
    ∧ (∀ tu : User, note.authorId = u →
        db.users.filter (fun q => q.2.email == some email) = [(u, tu)] →
        shareNote db (some u) N email p = Except.error "Cannot share note with yourself") := by
  refine ⟨?_, ?_, ?_⟩
  · intro hne
    have hbne : (note.authorId != u) = true := by simp [hne]
    simp [shareNote, hN, hbne]
  · intro hau hfil
    have hbne : (note.authorId != u) = false := by simp [hau]
    simp [shareNote, hN, hbne, uniqueBy, hfil]
  · intro tu hau hfil
    have hbne : (note.authorId != u) = false := by simp [hau]
    simp [shareNote, hN, hbne, uniqueBy, hfil]

/-- C8 instantiated: sharing the note of `exPrivDB` with the owner's own
email fails with the validation error. -/
theorem shareNote_errors_witness :
    shareNote exPrivDB (some 0) 10 "owner at x" Permission.read =
      Except.error "Cannot share note with yourself" :=
  (shareNote_errors exPrivDB 0 10 exPrivNote "owner at x" Permission.read (by rfl)).2.2
    { name := some "Owner", email := some "owner at x" } (by rfl) (by rfl)

/-! ### C9 -/

/-- C9: `createNote` requires authentication; with the optional arguments
omitted it stores an empty content and a public note; the stored row has
`authorId` equal to the requester and `lastEditedAt` equal to the current
time, and the returned identifier retrieves exactly that row. -/
theorem createNote_defaults (db : DB) (title : String) (now : Nat)
    (hWF : ∀ p ∈ db.notes, p.1 < db.nextId) :
    createNote db none title none none now = Except.error "Not authenticated"
    ∧ ∀ u : Nat, ∃ db' nid,
        createNote db (some u) title none none now = Except.ok (db', nid)
        ∧ findNote db' nid =
            some { title := title, content := "", isPublic := true
                   authorId := u, lastEditedBy := none, lastEditedAt := now } := by
  constructor
  · rfl
  · intro u
    refine ⟨_, db.nextId, rfl, ?_⟩
    unfold findNote
    simp only
    rw [List.find?_append]
    have hnone : db.notes.find? (fun p => p.1 == db.nextId) = none := by
      rw [List.find?_eq_none]
      intro x hx hxeq
      have := hWF x hx
      simp only [beq_iff_eq] at hxeq
      omega
    rw [hnone]
    simp [jsOrStr]

/-- C9 instantiated at `exDB` and requester 1. -/
theorem createNote_defaults_witness :
    createNote exDB none "hello" none none 7 = Except.error "Not authenticated"
    ∧ ∃ db' nid, createNote exDB (some 1) "hello" none none 7 = Except.ok (db', nid)
        ∧ findNote db' nid =
            some { title := "hello", content := "", isPublic := true
                   authorId := 1, lastEditedBy := none, lastEditedAt := 7 } :=
  ⟨(createNote_defaults exDB "hello" 7 (by decide)).1,
   (createNote_defaults exDB "hello" 7 (by decide)).2 1⟩

/-! ### Deduplication refinement: the source's findIndex filter equals the
first-occurrence deduplication described by the specification. -/

/-- `firstOccB` only depends on the seen-set pointwise. -/
theorem firstOccB_congr {α : Type} (key : α → Nat) (s1 s2 : Nat → Bool)
    (l : List α) (h : ∀ k, s1 k = s2 k) :
    firstOccB key s1 l = firstOccB key s2 l := by
  induction l generalizing s1 s2 with
  | nil => rfl
  | cons x xs ih =>
    simp only [firstOccB]
    rw [h (key x)]
    cases hs : s2 (key x) with
    | true => exact ih s1 s2 h
    | false =>
      simp only [Bool.false_eq_true, if_false]
      congr 1
      exact ih _ _ (fun k => by rw [h k])

/-- `firstOccB` is `keyDedup` after discarding the already-seen keys. -/
theorem firstOccB_eq_keyDedup {α : Type} (key : α → Nat) (seen : Nat → Bool)
    (l : List α) :
    firstOccB key seen l = keyDedup key (l.filter (fun x => !seen (key x))) := by
  induction l generalizing seen with
  | nil => simp [firstOccB, keyDedup]
  | cons x xs ih =>
    cases hs : seen (key x) with
    | true =>
      simp only [firstOccB, hs, if_true, List.filter_cons, Bool.not_true,
        Bool.false_eq_true, if_false]
      exact ih seen
    | false =>
      simp only [firstOccB, hs, Bool.false_eq_true, if_false, List.filter_cons,
        Bool.not_false, if_true, keyDedup, List.filter_filter]
      congr 1
      rw [ih (fun k => k == key x || seen k)]
      congr 1
      apply List.filter_congr
      intro y _
      simp only [Bool.not_or, bne]

/-- The specification's dedup is `firstOccB` started from the empty seen
set. -/
theorem keyDedup_eq_firstOccB {α : Type} (key : α → Nat) (l : List α) :
    keyDedup key l = firstOccB key (fun _ => false) l := by
  rw [firstOccB_eq_keyDedup]
  congr 1
  simp

/-- Elements kept by `firstOccB` come from the input list. -/
theorem firstOccB_subset {α : Type} (key : α → Nat) :
    ∀ (l : List α) (seen : Nat → Bool) (x : α), x ∈ firstOccB key seen l → x ∈ l := by
  intro l
  induction l with
  | nil => intro seen x hx; exact absurd hx (List.not_mem_nil x)
  | cons a t ih =>
    intro seen x hx
    simp only [firstOccB] at hx
    cases hs : seen (key a) with
    | true =>
      rw [hs] at hx
      simp only [if_true] at hx
      exact List.mem_cons_of_mem a (ih seen x hx)
    | false =>
      rw [hs] at hx
      simp only [Bool.false_eq_true, if_false, List.mem_cons] at hx
      cases hx with
      | inl h => exact h ▸ List.mem_cons_self a t
      | inr h => exact List.mem_cons_of_mem a (ih _ x h)

/-- If no element of the prefix satisfies the predicate, `findIdx` over the
concatenation is offset by the prefix length. -/
theorem findIdx_append_none {α : Type} (p : α → Bool) :
    ∀ (pre l : List α), (∀ y ∈ pre, p y = false) →
      (pre ++ l).findIdx p = pre.length + l.findIdx p := by
  intro pre
  induction pre with
  | nil => intro l _; simp
  | cons a pre ih =>
    intro l h
    have ha : p a = false := h a (List.mem_cons_self a pre)
    simp only [List.cons_append, List.findIdx_cons, ha, cond_false, List.length_cons]
    rw [ih l (fun y hy => h y (List.mem_cons_of_mem a hy))]
    omega

/-- If some element of the prefix satisfies the predicate, `findIdx` over
the concatenation lands inside the prefix. -/
theorem findIdx_append_lt {α : Type} (p : α → Bool) :
    ∀ (pre l : List α) (y : α), y ∈ pre → p y = true →
      (pre ++ l).findIdx p < pre.length := by
  intro pre
  induction pre with
  | nil => intro l y hy _; exact absurd hy (List.not_mem_nil y)
  | cons a pre ih =>
    intro l y hy hp
    cases ha : p a with
    | true => simp [List.findIdx_cons, ha]
    | false =>
      have hyp : y ∈ pre := by
        cases List.mem_cons.mp hy with
        | inl h => rw [h] at hp; rw [hp] at ha; exact absurd ha (by simp)
        | inr h => exact h
      simp only [List.cons_append, List.findIdx_cons, ha, cond_false, List.length_cons]
      exact Nat.succ_lt_succ (ih l y hyp hp)

/-- The key bridge: the JavaScript index-based filter, started after a
processed prefix, equals `firstOccB` seeded with the prefix's keys. -/
theorem jsDedupAux_eq_firstOccB {α : Type} (key : α → Nat) :
    ∀ (t pre : List α),
      jsDedupAux key (pre ++ t) pre.length t =
        firstOccB key (fun k => decide (k ∈ pre.map key)) t := by
  intro t
  induction t with
  | nil => intro pre; rfl
  | cons x xs ih =>
    intro pre
    by_cases hc : key x ∈ pre.map key
    · obtain ⟨y, hy, hky⟩ := List.mem_map.mp hc
      have hlt : (pre ++ x :: xs).findIdx (fun z => key z == key x) < pre.length :=
        findIdx_append_lt _ pre (x :: xs) y hy (by simp [hky])
      have hne : ((pre ++ x :: xs).findIdx (fun z => key z == key x) == pre.length) = false := by
        simp only [beq_eq_false_iff_ne, ne_eq]
        omega
      have hs : (decide (key x ∈ pre.map key)) = true := decide_eq_true hc
      simp only [jsDedupAux, hne, Bool.false_eq_true, if_false, firstOccB, hs, if_true]
      have hstep := ih (pre ++ [x])
      rw [List.append_assoc, List.singleton_append, List.length_append,
        List.length_singleton] at hstep
      rw [hstep]
      apply firstOccB_congr
      intro k
      apply decide_eq_decide.mpr
      constructor
      · intro hk
        rcases List.mem_map.mp hk with ⟨z, hz, hkz⟩
        rcases List.mem_append.mp hz with hz1 | hz1
        · exact List.mem_map.mpr ⟨z, hz1, hkz⟩
        · have : z = x := by simpa using hz1
          rw [this] at hkz
          rw [← hkz]
          exact hc
      · intro hk
        rcases List.mem_map.mp hk with ⟨z, hz, hkz⟩
        exact List.mem_map.mpr ⟨z, List.mem_append_left _ hz, hkz⟩
    · have hnm : ∀ y ∈ pre, ((fun z => key z == key x) y) = false := by
        intro y hy
        simp only [beq_eq_false_iff_ne, ne_eq]
        intro hky
        exact hc (List.mem_map.mpr ⟨y, hy, hky⟩)
      have hfi : (pre ++ x :: xs).findIdx (fun z => key z == key x) = pre.length := by
        rw [findIdx_append_none _ pre (x :: xs) hnm]
        simp [List.findIdx_cons]
      have heq : ((pre ++ x :: xs).findIdx (fun z => key z == key x) == pre.length) = true := by
        simp [hfi]
      have hs : (decide (key x ∈ pre.map key)) = false := decide_eq_false hc
      simp only [jsDedupAux, heq, if_true, firstOccB, hs, Bool.false_eq_true, if_false]
      congr 1
      have hstep := ih (pre ++ [x])
      rw [List.append_assoc, List.singleton_append, List.length_append,
        List.length_singleton] at hstep
      rw [hstep]
      apply firstOccB_congr
      intro k
      by_cases hk : k = key x
      · subst hk
        have h1 : (decide (key x ∈ (pre ++ [x]).map key)) = true :=
          decide_eq_true (List.mem_map.mpr ⟨x, List.mem_append_right _ (List.mem_cons_self x []), rfl⟩)
        simp [h1]
      · have hbk : (k == key x) = false := by simp [hk]
        rw [hbk]
        simp only [Bool.false_or]
        apply decide_eq_decide.mpr
        constructor
        · intro h2
          rcases List.mem_map.mp h2 with ⟨z, hz, hkz⟩
          rcases List.mem_append.mp hz with hz1 | hz1
          · exact List.mem_map.mpr ⟨z, hz1, hkz⟩
          · have hzx : z = x := by simpa using hz1
            rw [hzx] at hkz
            exact absurd hkz.symm hk
        · intro h2
          rcases List.mem_map.mp h2 with ⟨z, hz, hkz⟩
          exact List.mem_map.mpr ⟨z, List.mem_append_left _ hz, hkz⟩

/-- The deduplication implemented in `searchNotes` is exactly the
first-occurrence deduplication of the specification. -/
theorem jsDedup_eq_keyDedup {α : Type} (key : α → Nat) (l : List α) :
    jsDedup key l = keyDedup key l := by
  have h := jsDedupAux_eq_firstOccB key l []
  simp only [List.nil_append, List.length_nil, List.map_nil] at h
  unfold jsDedup
  rw [h, keyDedup_eq_firstOccB]
  apply firstOccB_congr
  intro k
  simp

/-! ### C6 -/

/-- C6: for an authenticated requester and a non-blank query,
`searchNotes` returns at most 10 results; the result list is exactly the
public scope (capped at 10) concatenated before the own scope (capped at
10), deduplicated by note id with the first occurrence winning, annotated,
and truncated to 10; and each result is labelled "You" exactly when its
author is the requester, otherwise with the owner's name/email/"Anonymous"
fallback chain. -/
theorem searchNotes_pipeline (db : DB) (idx : String → List Nat) (u : Nat)
    (q : String) (hq : ¬(jsTrim q = "")) :
    (searchNotes db idx (some u) q).length ≤ 10
    ∧ searchNotes db idx (some u) q =
        ((keyDedup (fun p => p.1)
            (searchPublic db (idx q) ++ searchOwn db (idx q) u)).map
          (fun p => { id := p.1, note := p.2
                      authorName := if p.2.authorId == u then "You"
                        else resolveName (findUser db p.2.authorId) "Anonymous"
                      : SearchView })).take 10
    ∧ ∀ r ∈ searchNotes db idx (some u) q,
        (r.note.authorId = u → r.authorName = "You")
        ∧ (r.note.authorId ≠ u →
            r.authorName = resolveName (findUser db r.note.authorId) "Anonymous") := by
  have hq' : (jsTrim q == "") = false := by simp [hq]
  have heq : searchNotes db idx (some u) q =
      ((jsDedup (fun p => p.1)
          (searchPublic db (idx q) ++ searchOwn db (idx q) u)).map
        (fun p => { id := p.1, note := p.2
                    authorName := if p.2.authorId == u then "You"
                      else resolveName (findUser db p.2.authorId) "Anonymous"
                    : SearchView })).take 10 := by
    simp only [searchNotes, hq', Bool.false_eq_true, if_false]
  refine ⟨?_, ?_, ?_⟩
  · rw [heq]
    exact List.length_take_le 10 _
  · rw [heq, jsDedup_eq_keyDedup]
  · intro r hr
    rw [heq] at hr
    obtain ⟨p, _, hpr⟩ := List.mem_map.mp (List.take_subset _ _ hr)
    subst hpr
    constructor
    · intro ha
      have ha' : p.2.authorId = u := ha
      have hb : (p.2.authorId == u) = true := by simp [ha']
      simp [hb]
    · intro hne
      have hne' : p.2.authorId ≠ u := hne
      have hb : (p.2.authorId == u) = false := by simp [hne']
      simp [hb]

/-- C6 instantiated at a concrete store, index and requester. -/
theorem searchNotes_pipeline_witness :
    (searchNotes exDB (fun _ => [10]) (some 1) "foo").length ≤ 10 :=
  (searchNotes_pipeline exDB (fun _ => [10]) 1 "foo" (by decide)).1

/-! ### C10 -/

/-- C10: every result of `searchNotes` is a public note or a note authored
by the requester — only the public scope and the own-author scope are
searched, so a private note merely shared with the requester never appears,
and anonymous requesters only ever see public notes. -/
theorem searchNotes_scope (db : DB) (idx : String → List Nat) (R : Option Nat)
    (q : String) :
    ∀ r ∈ searchNotes db idx R q,
      r.note.isPublic = true ∨ R = some r.note.authorId := by
  intro r hr
  by_cases hq : (jsTrim q == "") = true
  · simp only [searchNotes, hq, if_true] at hr
    exact absurd hr (List.not_mem_nil r)
  · have hq' : (jsTrim q == "") = false := by
      cases h : (jsTrim q == "") with
      | true => exact absurd h hq
      | false => rfl
    simp only [searchNotes, hq', Bool.false_eq_true, if_false] at hr
    cases R with
    | none =>
      left
      obtain ⟨p, hp, hpr⟩ := List.mem_map.mp hr
      subst hpr
      unfold searchPublic at hp
      have hp2 := List.take_subset _ _ hp
      exact (List.mem_filter.mp hp2).2
    | some u =>
      obtain ⟨p, hp, hpr⟩ := List.mem_map.mp (List.take_subset _ _ hr)
      subst hpr
      rw [jsDedup_eq_keyDedup, keyDedup_eq_firstOccB] at hp
      have hpl := firstOccB_subset _ _ _ _ hp
      rcases List.mem_append.mp hpl with hmem | hmem
      · left
        unfold searchPublic at hmem
        have hp2 := List.take_subset _ _ hmem
        exact (List.mem_filter.mp hp2).2
      · right
        unfold searchOwn at hmem
        have hp2 := List.take_subset _ _ hmem
        have hb := (List.mem_filter.mp hp2).2
        simp only [beq_iff_eq] at hb
        rw [hb]

/-- C10 instantiated: the one result user 1 gets when searching `exDB` is
the public note. -/
theorem searchNotes_scope_witness :
    exNote.isPublic = true ∨ (some 1 : Option Nat) = some exNote.authorId :=
  searchNotes_scope exDB (fun _ => [10]) (some 1) "foo"
    { id := 10, note := exNote, authorName := "Owner" } (by decide)

/-! ### C5 -/

/-- In a table with distinct row ids, two rows with the same id are the
same row. -/
theorem key_unique {β : Type} :
    ∀ (l : List (Nat × β)), (l.map Prod.fst).Nodup →
      ∀ a b : Nat × β, a ∈ l → b ∈ l → a.1 = b.1 → a = b := by
  intro l
  induction l with
  | nil => intro _ a b ha _ _; exact absurd ha (List.not_mem_nil a)
  | cons c t ih =>
    intro hnd a b ha hb hab
    rw [List.map_cons] at hnd
    have hc1 : c.1 ∉ t.map Prod.fst := (List.nodup_cons.mp hnd).1
    have hndt : (t.map Prod.fst).Nodup := (List.nodup_cons.mp hnd).2
    cases List.mem_cons.mp ha with
    | inl h1 =>
      cases List.mem_cons.mp hb with
      | inl h2 => rw [h1, h2]
      | inr h2 =>
        exfalso
        have hb1 : b.1 ∈ t.map Prod.fst := List.mem_map.mpr ⟨b, h2, rfl⟩
        rw [h1] at hab
        rw [← hab] at hb1
        exact hc1 hb1
    | inr h1 =>
      cases List.mem_cons.mp hb with
      | inl h2 =>
        exfalso
        have ha1 : a.1 ∈ t.map Prod.fst := List.mem_map.mpr ⟨a, h1, rfl⟩
        rw [hab, h2] at ha1
        exact hc1 ha1
      | inr h2 => exact ih hndt a b h1 h2 hab

/-- A store in which the (noteId, target) pair already carries a share with
the requested permission is a fixpoint of `shareNote`: the upsert patches
the row in place with the value it already has. -/
theorem shareNote_fixpoint (db2 : DB) (O N tgt sid : Nat) (tu : User) (sh : Share)
    (email : String) (p : Permission) (note : Note)
    (hnote : findNote db2 N = some note) (hauth : note.authorId = O)
    (husers : db2.users.filter (fun q => q.2.email == some email) = [(tgt, tu)])
    (hself : tgt ≠ O)
    (hfil : db2.shares.filter (pairPred N tgt) = [(sid, sh)])
    (hperm : sh.permission = p)
    (hiv : ∀ q ∈ db2.shares, q.1 = sid → q = (sid, sh)) :
    shareNote db2 (some O) N email p = Except.ok db2 := by
  have hbne : (note.authorId != O) = false := by simp [hauth]
  have huniq : uniqueBy (fun q => q.2.email == some email) db2.users =
      Except.ok (some (tgt, tu)) := by simp [uniqueBy, husers]
  have hbeq : (tgt == O) = false := by simp [hself]
  have hu2 : uniqueBy (pairPred N tgt) db2.shares = Except.ok (some (sid, sh)) := by
    simp [uniqueBy, hfil]
  have hmap : db2.shares.map (fun q =>
      if q.1 == sid then (q.1, { q.2 with permission := p }) else q) = db2.shares := by
    have hcg : ∀ q ∈ db2.shares,
        (if q.1 == sid then (q.1, { q.2 with permission := p }) else q) = q := by
      intro q hq
      by_cases hqs : q.1 = sid
      · have hq2 : q = (sid, sh) := hiv q hq hqs
        subst hq2
        simp only [beq_self_eq_true, if_true]
        rw [← hperm]
      · have hb2 : (q.1 == sid) = false := by simp [hqs]
        rw [hb2]
        simp
    have hmc := List.map_congr_left hcg
    simpa using hmc
  simp only [shareNote, hnote, hbne, Bool.false_eq_true, if_false, huniq, hbeq, hu2,
    hmap]

/-- C5: `shareNote` is an idempotent upsert — after a successful call there
is exactly one share row for the (note, target) pair, carrying the last
permission supplied, and repeating the very same call leaves the store
unchanged.  By induction over a sequence of such calls, the final state
holds exactly one row for the pair with the most recent permission. -/
theorem shareNote_upsert_idempotent (db db' : DB) (O N tgt : Nat) (tu : User)
    (email : String) (p : Permission)
    (hWF : sharesWF db)
    (husers : db.users.filter (fun q => q.2.email == some email) = [(tgt, tu)])
    (h : shareNote db (some O) N email p = Except.ok db') :
    (db'.shares.filter (pairPred N tgt)).map (fun q => q.2.permission) = [p]
    ∧ shareNote db' (some O) N email p = Except.ok db' := by
  cases hnote : findNote db N with
  | none =>
    simp only [shareNote, hnote] at h
    exact absurd h (by simp)
  | some note =>
    by_cases hauth : note.authorId = O
    · have hbne : (note.authorId != O) = false := by simp [hauth]
      have huniq : uniqueBy (fun q => q.2.email == some email) db.users =
          Except.ok (some (tgt, tu)) := by simp [uniqueBy, husers]
      by_cases hself : tgt = O
      · exfalso
        have hbeq : (tgt == O) = true := by simp [hself]
        simp only [shareNote, hnote, hbne, Bool.false_eq_true, if_false, huniq,
          hbeq, if_true] at h
        exact absurd h (by simp)
      · have hbeq : (tgt == O) = false := by simp [hself]
        cases hfil : db.shares.filter (pairPred N tgt) with
        | nil =>
          have hu2 : uniqueBy (pairPred N tgt) db.shares = Except.ok none := by
            simp [uniqueBy, hfil]
          simp only [shareNote, hnote, hbne, Bool.false_eq_true, if_false, huniq,
            hbeq, hu2, Except.ok.injEq] at h
          subst h
          have hfil2 : ((db.shares ++ [(db.nextId, Share.mk N tgt p O)]).filter
              (pairPred N tgt)) = [(db.nextId, Share.mk N tgt p O)] := by
            rw [List.filter_append, hfil]
            simp [pairPred]
          constructor
          · show ((db.shares ++ [(db.nextId, Share.mk N tgt p O)]).filter
                (pairPred N tgt)).map (fun q => q.2.permission) = [p]
            rw [hfil2]
            rfl
          · refine shareNote_fixpoint
              { users := db.users, notes := db.notes
                shares := db.shares ++ [(db.nextId, Share.mk N tgt p O)]
                nextId := db.nextId + 1 }
              O N tgt db.nextId tu (Share.mk N tgt p O) email p note hnote hauth
              husers hself hfil2 rfl ?_
            intro q hq hq1
            rcases List.mem_append.mp hq with hq2 | hq2
            · exact absurd hq1 (Nat.ne_of_lt (hWF.2 q hq2))
            · simpa using hq2
        | cons x0 xs =>
          cases xs with
          | cons y ys =>
            have hu2 : uniqueBy (pairPred N tgt) db.shares =
                Except.error "unique query returned more than one result" := by
              simp [uniqueBy, hfil]
            simp only [shareNote, hnote, hbne, Bool.false_eq_true, if_false, huniq,
              hbeq, hu2] at h
            exact absurd h (by simp)
          | nil =>
            have hu2 : uniqueBy (pairPred N tgt) db.shares = Except.ok (some x0) := by
              simp [uniqueBy, hfil]
            simp only [shareNote, hnote, hbne, Bool.false_eq_true, if_false, huniq,
              hbeq, hu2, Except.ok.injEq] at h
            subst h
            have hx0 : x0 ∈ db.shares.filter (pairPred N tgt) := by
              rw [hfil]; exact List.mem_cons_self x0 []
            have hx0s : x0 ∈ db.shares := (List.mem_filter.mp hx0).1
            have hFpair : ∀ q ∈ db.shares, pairPred N tgt
                (if q.1 == x0.1 then (q.1, { q.2 with permission := p }) else q) =
                pairPred N tgt q := by
              intro q _
              by_cases hq : q.1 = x0.1 <;> simp [hq, pairPred]
            have hfil2 : ((db.shares.map (fun q =>
                if q.1 == x0.1 then (q.1, { q.2 with permission := p }) else q)).filter
                  (pairPred N tgt)) = [(x0.1, { x0.2 with permission := p })] := by
              rw [List.filter_map]
              rw [(List.filter_congr hFpair :
                db.shares.filter ((pairPred N tgt) ∘ (fun q =>
                  if q.1 == x0.1 then (q.1, { q.2 with permission := p }) else q)) =
                db.shares.filter (pairPred N tgt))]
              rw [hfil]
              simp
            constructor
            · show ((db.shares.map (fun q =>
                  if q.1 == x0.1 then (q.1, { q.2 with permission := p }) else q)).filter
                    (pairPred N tgt)).map (fun q => q.2.permission) = [p]
              rw [hfil2]
              rfl
            · refine shareNote_fixpoint
                { users := db.users, notes := db.notes
                  shares := db.shares.map (fun q =>
                    if q.1 == x0.1 then (q.1, { q.2 with permission := p }) else q)
                  nextId := db.nextId }
                O N tgt x0.1 tu { x0.2 with permission := p } email p note hnote
                hauth husers hself hfil2 rfl ?_
              intro q hq hq1
              obtain ⟨q0, hq0, hq0F⟩ := List.mem_map.mp hq
              have hq01 : q0.1 = x0.1 := by
                by_cases hc : q0.1 = x0.1
                · exact hc
                · exfalso
                  have hb2 : (q0.1 == x0.1) = false := by simp [hc]
                  rw [hb2] at hq0F
                  simp only [Bool.false_eq_true, if_false] at hq0F
                  rw [hq0F] at hc
                  exact hc hq1
              have hq0x : q0 = x0 := key_unique db.shares hWF.1 q0 x0 hq0 hx0s hq01
              rw [← hq0F, hq0x]
              simp
    · exfalso
      have hbne : (note.authorId != O) = true := by simp [hauth]
      simp [shareNote, hnote, hbne] at h

/-- C5 instantiated: re-sharing the private note of `exPrivDB` with user 1
(already holding a read share) as write leaves exactly one row with
permission write, and repeating the call is a no-op. -/
theorem shareNote_upsert_idempotent_witness :
    ((((shareNote exPrivDB (some 0) 10 "uma at x" Permission.write).toOption.getD
        exPrivDB).shares.filter (pairPred 10 1)).map (fun q => q.2.permission) =
      [Permission.write])
    ∧ shareNote ((shareNote exPrivDB (some 0) 10 "uma at x" Permission.write).toOption.getD
        exPrivDB) (some 0) 10 "uma at x" Permission.write =
      Except.ok ((shareNote exPrivDB (some 0) 10 "uma at x" Permission.write).toOption.getD
        exPrivDB) :=
  shareNote_upsert_idempotent exPrivDB
    ((shareNote exPrivDB (some 0) 10 "uma at x" Permission.write).toOption.getD exPrivDB)
    0 10 1 { name := some "Uma", email := some "uma at x" } "uma at x" Permission.write
    (by constructor
        · decide
        · decide)
    (by rfl) (by rfl)

end NotesApp
